import Mathlib

/-!
Shallow embedding of the orchestration core of the OpenMS TOPP tool
`QualityControl` (src/topp/QualityControl.cpp), together with proofs of the
spec claims about it.  C++ `std::map` and the MetaInfo key/value store are
modelled as association lists with insert-or-replace semantics; raw pointers
into the `ConsensusMap` are modelled as handles (group id, slot index);
exceptions and `ILLEGAL_PARAMETERS` exits are modelled with `Except`.
-/

namespace QualityControl

/-- Generic association-list lookup (first matching key), the model of
`std::map::find` / `count`. -/
def alistLookup {α β : Type} [DecidableEq α] : List (α × β) → α → Option β
  | [], _ => none
  | (a, b) :: rest, k => if a = k then some b else alistLookup rest k

/-- Generic association-list insert-or-replace, the model of
`std::map::operator[] =`: replaces the value of an existing key,
otherwise appends a fresh entry. -/
def alistInsert {α β : Type} [DecidableEq α] : List (α × β) → α → β → List (α × β)
  | [], k, v => [(k, v)]
  | (a, b) :: rest, k, v =>
      if a = k then (a, v) :: rest else (a, b) :: alistInsert rest k v

/-- Model of OpenMS `DataValue`: the meta values used by this tool are
strings and integers; `empty` models `DataValue::EMPTY`, returned by
`getMetaValue` for an absent key. -/
inductive DataValue where
  | empty
  | str (s : String)
  | int (n : Int)
deriving DecidableEq, Repr

/-- The implicit `DataValue` to `String` conversion used when a
`DataValue` is used as a `std::map<String, ...>` key. -/
def DataValue.asString : DataValue → String
  | .empty => ""
  | .str s => s
  | .int n => toString n

/-- The MetaInfoInterface key/value store, as an association list. -/
abbrev MetaMap := List (String × DataValue)

/-- Lookup of a meta value. -/
def metaLookup (m : MetaMap) (k : String) : Option DataValue :=
  alistLookup m k

/-- `MetaInfoInterface::metaValueExists`. -/
def metaValueExists (m : MetaMap) (k : String) : Bool :=
  (metaLookup m k).isSome

/-- `MetaInfoInterface::getMetaValue`: `DataValue::EMPTY` when absent. -/
def getMetaValue (m : MetaMap) (k : String) : DataValue :=
  (metaLookup m k).getD .empty

/-- `MetaInfoInterface::setMetaValue`: replaces an existing entry for the
key, otherwise appends. -/
def setMetaValue (m : MetaMap) (k : String) (v : DataValue) : MetaMap :=
  alistInsert m k v

/-- `MetaInfoInterface::getKeys`. -/
def getKeys (m : MetaMap) : List String := m.map Prod.fst

/-- A ranked hypothesis record (`PeptideHit`); only its open meta-value
set matters to this core. -/
structure PeptideHit where
  meta : MetaMap
deriving DecidableEq, Repr

/-- An identification record (`PeptideIdentification`): an identifier
(set via `setIdentifier`), ranked hits, and record-level meta values. -/
structure PeptideIdentification where
  identifier : String
  hits : List PeptideHit
  meta : MetaMap
deriving DecidableEq, Repr

/-- `PeptideIdentification::setIdentifier`. -/
def setIdentifier (p : PeptideIdentification) (ident : String) :
    PeptideIdentification :=
  { p with identifier := ident }

/-- `ProteinIdentification`, reduced to what `main_` reads from it:
its primary MS run path and its identifier. -/
structure ProteinIdentification where
  primaryMSRunPath : List String
  identifier : String
deriving DecidableEq, Repr

/-- A consensus feature: a group of the consensus map holding
identification records. -/
structure ConsensusFeature where
  pepIds : List PeptideIdentification
deriving DecidableEq, Repr

/-- The canonical aggregation structure (`ConsensusMap`): grouped
records, unassigned records, and provenance descriptors. -/
structure ConsensusMap where
  features : List ConsensusFeature
  unassigned : List PeptideIdentification
  proteinIds : List ProteinIdentification
deriving DecidableEq, Repr

/-- Errors: `Exception::InvalidParameter` throws, `ILLEGAL_PARAMETERS`
returns, `std::map::at` on a missing key, and the error branch of an
unguarded `operator[]` past the end of a vector. -/
inductive QCError where
  | invalidParameter (msg : String)
  | illegalParameters (msg : String)
  | mapAtOutOfRange
  | indexOutOfBounds
deriving DecidableEq, Repr

/-- Modelled from the spec: `QCBase::Requires` (QCBase.h is not part of
the provided source), the enumerated tags for the optional input
categories this tool uses. -/
inductive Requires where
  | RAWMZML
  | POSTFDRFEAT
  | TRAFOALIGN
  | CONTAMINANTS
deriving DecidableEq, Repr, Fintype

/-- Modelled from the spec: `QCBase::Status`, a set of Requirements
supporting union and superset test. -/
abbrev Status := Finset Requires

/-- Modelled from the spec: `QCBase::Status::isSuperSetOf` - true iff
every requirement of `o` is present in `s`. -/
def isSuperSetOf (s o : Status) : Bool := decide (o ⊆ s)

/-- `TOPPQualityControl::isRunnable_`: a metric is runnable iff the
current status is a superset of its requirement set (the C++ function
additionally logs one warning per missing requirement bit). -/
def isRunnable_ (mreq : Status) (s : Status) : Bool := isSuperSetOf s mreq

/-- `TOPPQualityControl::updateFileStatus_`.  The C++ mutates `status`
and `number_exps` by reference and returns the file list, throwing
`Exception::InvalidParameter` on a length mismatch; here the updated
state is returned alongside the list. -/
def updateFileStatus_ (status : Status) (number_exps : Nat) (port : String)
    (files : List String) (req : Requires) :
    Except QCError (Status × Nat × List String) :=
  if files.isEmpty then .ok (status, number_exps, files)
  else
    let n := if number_exps = 0 then files.length else number_exps
    if n ≠ files.length then
      .error (.invalidParameter
        (port ++ ": invalid number of files. Expected were " ++ toString n ++ ".\n"))
    else .ok (insert req status, n, files)

/-- The per-run `out_feat` store step of `main_`: at run index `i`, if the
output feature list is non-empty, `out_feat[i]` is read without a bounds
check; the error value models that invalid access. -/
def outFeatWrite (out_feat : List String) (i : Nat) : Except QCError (Option String) :=
  if out_feat.isEmpty then .ok none
  else
    match out_feat[i]? with
    | some f => .ok (some f)
    | none => .error .indexOutOfBounds

/-- The `out_feat` stores performed by the main loop over runs `0..n-1`,
collecting the files written. -/
def outFeatWrites (out_feat : List String) : Nat → Except QCError (List String)
  | 0 => .ok []
  | n + 1 =>
    match outFeatWrites out_feat n with
    | .error e => .error e
    | .ok prev =>
      match outFeatWrite out_feat n with
      | .error e => .error e
      | .ok none => .ok prev
      | .ok (some f) => .ok (prev ++ [f])

/-- In-memory model of the pointers stored in `map_to_id`: the group id
used by `fillPepIDMap_` (the feature index, or -1 for the unassigned
list) together with the slot of the record inside that group. -/
abbrev PepRef := Int × Nat

/-- The `map<String, PeptideIdentification*>` join index. -/
abbrev PepMap := List (String × PepRef)

/-- Dereference a stored pointer against the consensus map. -/
def derefPepRef (cmap : ConsensusMap) (r : PepRef) : Option PeptideIdentification :=
  match r with
  | (.ofNat g, s) =>
    match cmap.features[g]? with
    | none => none
    | some cf => cf.pepIds[s]?
  | (.negSucc 0, s) => cmap.unassigned[s]?
  | (.negSucc (_ + 1), _) => none

/-- Write back through a stored pointer. -/
def setPepAt (cmap : ConsensusMap) (r : PepRef) (p : PeptideIdentification) :
    ConsensusMap :=
  match r with
  | (.ofNat g, s) =>
    match cmap.features[g]? with
    | none => cmap
    | some cf =>
      { cmap with features := cmap.features.set g ⟨cf.pepIds.set s p⟩ }
  | (.negSucc 0, s) => { cmap with unassigned := cmap.unassigned.set s p }
  | (.negSucc (_ + 1), _) => cmap

/-- The `pep_id.setMetaValue("cf_id", group_id)` stamp applied by
`fillPepIDMap_`. -/
def stampCfId (gid : Int) (p : PeptideIdentification) : PeptideIdentification :=
  { p with meta := setMetaValue p.meta "cf_id" (.int gid) }

/-- The map key under which `fillPepIDMap_` files a record: its "UID"
meta value, converted to `String`. -/
def pepKey (p : PeptideIdentification) : String :=
  (getMetaValue p.meta "UID").asString

/-- `TOPPQualityControl::fillPepIDMap_` on one record list: records
missing the "UID" meta value are a fatal `InvalidParameter`; others are
stamped with `cf_id := group_id` and filed under their "UID" key.  The
C++ mutates the records and the map in place; here the stamped list and
the extended map are returned.  `slot` tracks the position of the
current record, i.e. where the stored pointer points. -/
def fillPepIDMap_ (map_to_id : PepMap) (group_id : Int) (slot : Nat) :
    List PeptideIdentification →
    Except QCError (PepMap × List PeptideIdentification)
  | [] => .ok (map_to_id, [])
  | p :: ps =>
    if metaValueExists p.meta "UID" = false then
      .error (.invalidParameter
        "No unique ID at peptideidentifications found. Please run PeptideIndexer with -addUID.\n")
    else
      match fillPepIDMap_
        (alistInsert map_to_id
          (getMetaValue (stampCfId group_id p).meta "UID").asString
          (group_id, slot))
        group_id (slot + 1) ps with
      | .error e => .error e
      | .ok (m3, ps2) => .ok (m3, stampCfId group_id p :: ps2)

/-- The loop of `main_` calling `fillPepIDMap_` on every group `i` of the
consensus map. -/
def fillGroups (map_to_id : PepMap) (gidx : Nat) :
    List ConsensusFeature → Except QCError (PepMap × List ConsensusFeature)
  | [] => .ok (map_to_id, [])
  | cf :: cfs =>
    match fillPepIDMap_ map_to_id (Int.ofNat gidx) 0 cf.pepIds with
    | .error e => .error e
    | .ok (m2, ids2) =>
      match fillGroups m2 (gidx + 1) cfs with
      | .error e => .error e
      | .ok (m3, cfs2) => .ok (m3, ⟨ids2⟩ :: cfs2)

/-- The full Identity Join Index build of `main_`: every group of the
consensus map, then the unassigned records with group id -1. -/
def buildPepIDMap (cmap : ConsensusMap) : Except QCError (PepMap × ConsensusMap) :=
  match fillGroups [] 0 cmap.features with
  | .error e => .error e
  | .ok (m1, feats2) =>
    match fillPepIDMap_ m1 (-1) 0 cmap.unassigned with
    | .error e => .error e
    | .ok (m2, un2) =>
      .ok (m2, { cmap with features := feats2, unassigned := un2 })

/-- `TOPPQualityControl::copyMetaValues_`: copy every key of `f` into
`t`, overwriting existing values. -/
def copyMetaValues_ (f t : MetaMap) : MetaMap :=
  (getKeys f).foldl (fun acc k => setMetaValue acc k (getMetaValue f k)) t

/-- The body of `copyPepIDMetaValues_` for one transient record: empty
hit lists are skipped; a missing "UID" is a fatal `InvalidParameter`;
otherwise the canonical counterpart is resolved via `map_to_id.at` and
receives the record-level meta values and the meta values of the
top-ranked hit (written into its own unguarded `getHits()[0]`). -/
def mergePepID (map_to_id : PepMap) (cmap : ConsensusMap)
    (ref_pep_id : PeptideIdentification) : Except QCError ConsensusMap :=
  match ref_pep_id.hits with
  | [] => .ok cmap
  | rh :: _ =>
    if metaValueExists ref_pep_id.meta "UID" = false then
      .error (.invalidParameter
        "No unique ID at peptideidentifications found. Please run PeptideIndexer with -addUID.\n")
    else
      match alistLookup map_to_id (getMetaValue ref_pep_id.meta "UID").asString with
      | none => .error .mapAtOutOfRange
      | some r =>
        match derefPepRef cmap r with
        | none => .error .indexOutOfBounds
        | some pep_id =>
          match pep_id.hits with
          | [] => .error .indexOutOfBounds
          | h0 :: hrest =>
            .ok (setPepAt cmap r
              { pep_id with
                meta := copyMetaValues_ ref_pep_id.meta pep_id.meta,
                hits := ⟨copyMetaValues_ rh.meta h0.meta⟩ :: hrest })

/-- `TOPPQualityControl::copyPepIDMetaValues_` over a transient record
list, threading the consensus map the stored pointers refer into. -/
def copyPepIDMetaValues_ (pep_ids : List PeptideIdentification)
    (map_to_id : PepMap) (cmap : ConsensusMap) : Except QCError ConsensusMap :=
  match pep_ids with
  | [] => .ok cmap
  | t :: rest =>
    match mergePepID map_to_id cmap t with
    | .error e => .error e
    | .ok cmap2 => copyPepIDMetaValues_ rest map_to_id cmap2

/-- The `map<StringList, String>` from a primary MS run path to the
protein identification identifier. -/
abbrev RunIdMap := List (List String × String)

/-- The `map_to_identifier` build loop of `main_`: a duplicate run path
is fatal (`ILLEGAL_PARAMETERS`). -/
def buildRunIdMap (acc : RunIdMap) :
    List ProteinIdentification → Except QCError RunIdMap
  | [] => .ok acc
  | prot_id :: rest =>
    match alistLookup acc prot_id.primaryMSRunPath with
    | some _ =>
      .error (.illegalParameters
        "Multiple protein identifications with the same identifier in ConsensusXML. Check input!\n")
    | none =>
      buildRunIdMap (alistInsert acc prot_id.primaryMSRunPath prot_id.identifier)
        rest

/-- The staging step of `main_` after `qc_top_n_over_rt.compute`: resolve
the run path of the current feature map; on failure return
`ILLEGAL_PARAMETERS` (nothing staged, consensus map untouched); on
success stamp the new records with the resolved identifier and append
them to the staged list. -/
def stageNewIds (map_to_identifier : RunIdMap) (run_path : List String)
    (new_ids staged : List PeptideIdentification) (cmap : ConsensusMap) :
    Except QCError (List PeptideIdentification × ConsensusMap) :=
  match alistLookup map_to_identifier run_path with
  | none =>
    .error (.illegalParameters
      ("FeatureXML (MS run " ++ toString run_path ++
        ") does not correspond to ConsensusXML (run not found). Check input!\n"))
  | some ident =>
    .ok (staged ++ new_ids.map (fun p => setIdentifier p ident), cmap)

/-- `MzTabParameter`, reduced to the four fields `main_` sets. -/
structure MzTabParameter where
  cvLabel : String
  accession : String
  name : String
  value : String
deriving DecidableEq, Repr

/-- The `meta.custom` map of `MzTabMetaData`, keyed by `Size`. -/
abbrev CustomMap := List (Nat × MzTabParameter)

/-- The TIC value string of `main_`: `tics[i][0]` is read without a
bounds check (hence `none` on an empty curve), then the remaining
coordinate pairs are appended; coordinates are kept as the strings the
C++ `String(double)` conversions produce. -/
def serializeTIC : List (String × String) → Option String
  | [] => none
  | p0 :: rest =>
    some ((rest.foldl (fun acc p => acc ++ ", " ++ p.1 ++ ", " ++ p.2)
      ("[" ++ p0.1 ++ ", " ++ p0.2)) ++ "]")

/-- The `MzTabParameter` built for run `i` of the TIC results. -/
def mkTicParam (i : Nat) (v : String) : MzTabParameter :=
  { cvLabel := "total ion current"
    accession := "MS:1000285"
    name := "TIC_" ++ toString (i + 1)
    value := v }

/-- The `MzTabParameter` built for run `i` of the MS2 identification
rate results: the rate scaled by 100 (rates are kept as rationals). -/
def mkMs2Param (i : Nat) (rate : ℚ) : MzTabParameter :=
  { cvLabel := "MS2 identification rate"
    accession := "null"
    name := "MS2_ID_Rate_" ++ toString (i + 1)
    value := toString (100 * rate) }

/-- The TIC loop of `main_`: each entry is stored under key
`meta.custom.size()`. -/
def addTicEntries (custom : CustomMap) (i : Nat) :
    List (List (String × String)) → Option CustomMap
  | [] => some custom
  | c :: cs =>
    match serializeTIC c with
    | none => none
    | some v =>
      addTicEntries (alistInsert custom custom.length (mkTicParam i v)) (i + 1) cs

/-- The MS2 identification rate loop of `main_`. -/
def addMs2Entries (custom : CustomMap) (i : Nat) : List ℚ → CustomMap
  | [] => custom
  | rate :: rest =>
    addMs2Entries (alistInsert custom custom.length (mkMs2Param i rate)) (i + 1) rest

/-- The synthetic-metadata part of the Report Assembler: the TIC loop
followed by the MS2 identification rate loop. -/
def assembleReportMeta (custom : CustomMap)
    (tics : List (List (String × String))) (rates : List ℚ) : Option CustomMap :=
  match addTicEntries custom 0 tics with
  | none => none
  | some c2 => some (addMs2Entries c2 0 rates)

/-- Spec-side description of the TIC entries: keys count up from `base`,
names count up from `i + 1`. -/
def ticEntriesSpec (base i : Nat) :
    List (List (String × String)) → List (Nat × MzTabParameter)
  | [] => []
  | c :: cs =>
    (base, mkTicParam i ((serializeTIC c).getD "")) :: ticEntriesSpec (base + 1) (i + 1) cs

/-- Spec-side description of the MS2 identification rate entries. -/
def ms2EntriesSpec (base i : Nat) : List ℚ → List (Nat × MzTabParameter)
  | [] => []
  | rate :: rest => (base, mkMs2Param i rate) :: ms2EntriesSpec (base + 1) (i + 1) rest

/-- All identification records of a consensus map, grouped records
first, in traversal order of the index build. -/
def allPeps (cmap : ConsensusMap) : List PeptideIdentification :=
  (cmap.features.map ConsensusFeature.pepIds).flatten ++ cmap.unassigned

/-- The "UID" keys of all records of a consensus map. -/
def allKeys (cmap : ConsensusMap) : List String :=
  (allPeps cmap).map pepKey

/-- Spec-side description of the stamped groups: group `g` of the result
carries `cf_id = i + g`. -/
def stampedFeatures (i : Nat) : List ConsensusFeature → List ConsensusFeature
  | [] => []
  | cf :: cfs =>
    ⟨cf.pepIds.map (stampCfId (Int.ofNat i))⟩ :: stampedFeatures (i + 1) cfs

/-- Spec-side description of the consensus map after the index build:
every grouped record stamped with its group index, every unassigned
record stamped with -1. -/
def stampedCMap (cmap : ConsensusMap) : ConsensusMap :=
  { cmap with
    features := stampedFeatures 0 cmap.features
    unassigned := cmap.unassigned.map (stampCfId (-1)) }

/-- Spec-side description of the index entries produced for one record
list: record at slot `slot + j` is filed under its key with the pointer
`(gid, slot + j)`. -/
def entriesOf (gid : Int) (slot : Nat) :
    List PeptideIdentification → PepMap
  | [] => []
  | p :: ps => (pepKey p, (gid, slot)) :: entriesOf gid (slot + 1) ps

/-- Spec-side description of the index entries of the grouped records. -/
def entriesOfGroups (i : Nat) : List ConsensusFeature → PepMap
  | [] => []
  | cf :: cfs => entriesOf (Int.ofNat i) 0 cf.pepIds ++ entriesOfGroups (i + 1) cfs

/-- Spec-side description of the whole Identity Join Index (valid when
all keys are distinct, so no insert ever overwrites). -/
def entriesOfCMap (cmap : ConsensusMap) : PepMap :=
  entriesOfGroups 0 cmap.features ++ entriesOf (-1) 0 cmap.unassigned

/-- The map produced by a successful `fillPepIDMap_` run, as a pure
fold of the per-record inserts. -/
def fillMapOf (m : PepMap) (gid : Int) (slot : Nat) :
    List PeptideIdentification → PepMap
  | [] => m
  | p :: ps => fillMapOf (alistInsert m (pepKey p) (gid, slot)) gid (slot + 1) ps

/-- The map produced by a successful `fillGroups` run. -/
def groupsMapOf (m : PepMap) (gidx : Nat) : List ConsensusFeature → PepMap
  | [] => m
  | cf :: cfs => groupsMapOf (fillMapOf m (Int.ofNat gidx) 0 cf.pepIds) (gidx + 1) cfs

end QualityControl

namespace QualityControl

lemma alistLookup_insert {α β : Type} [DecidableEq α] (m : List (α × β))
    (k : α) (v : β) (k2 : α) :
    alistLookup (alistInsert m k v) k2 =
      if k = k2 then some v else alistLookup m k2 := by
  induction m with
  | nil => simp [alistInsert, alistLookup]
  | cons hd tl ih =>
    obtain ⟨a, b⟩ := hd
    rw [alistInsert]
    by_cases hak : a = k
    · subst hak
      rw [if_pos rfl]
      simp only [alistLookup]
      by_cases h2 : a = k2 <;> simp [h2]
    · rw [if_neg hak]
      simp only [alistLookup, ih]
      by_cases h2 : a = k2 <;> by_cases h3 : k = k2 <;> simp_all

lemma alistLookup_eq_none {α β : Type} [DecidableEq α] (m : List (α × β)) (k : α) :
    alistLookup m k = none ↔ k ∉ m.map Prod.fst := by
  induction m with
  | nil => simp [alistLookup]
  | cons hd tl ih =>
    obtain ⟨a, b⟩ := hd
    simp only [alistLookup, List.map_cons, List.mem_cons]
    by_cases hak : a = k <;> simp_all [eq_comm]

lemma alistLookup_isSome {α β : Type} [DecidableEq α] (m : List (α × β)) (k : α) :
    (alistLookup m k).isSome = true ↔ k ∈ m.map Prod.fst := by
  rcases h : alistLookup m k with _ | v
  · simpa [h] using (alistLookup_eq_none m k).mp h
  · have : ¬ alistLookup m k = none := by simp [h]
    simpa [h] using (not_iff_not.mpr (alistLookup_eq_none m k)).mp this

lemma alistInsert_of_notMem {α β : Type} [DecidableEq α] {m : List (α × β)}
    {k : α} (v : β) (h : k ∉ m.map Prod.fst) :
    alistInsert m k v = m ++ [(k, v)] := by
  induction m with
  | nil => simp [alistInsert]
  | cons hd tl ih =>
    obtain ⟨a, b⟩ := hd
    simp only [List.map_cons, List.mem_cons] at h
    push_neg at h
    rw [alistInsert, if_neg (fun hak => h.1 hak.symm), ih h.2, List.cons_append]

lemma alistLookup_append {α β : Type} [DecidableEq α] (l1 l2 : List (α × β)) (k : α) :
    alistLookup (l1 ++ l2) k = (alistLookup l1 k).or (alistLookup l2 k) := by
  induction l1 with
  | nil => simp [alistLookup]
  | cons hd tl ih =>
    obtain ⟨a, b⟩ := hd
    by_cases hak : a = k <;> simp [alistLookup, hak, ih]

lemma metaLookup_set (m : MetaMap) (k : String) (v : DataValue) (k2 : String) :
    metaLookup (setMetaValue m k v) k2 =
      if k = k2 then some v else metaLookup m k2 :=
  alistLookup_insert m k v k2

lemma metaLookup_copy_fold (f : MetaMap) (ks : List String) :
    ∀ (t : MetaMap) (k : String),
    metaLookup (ks.foldl (fun acc k2 => setMetaValue acc k2 (getMetaValue f k2)) t) k =
      if k ∈ ks then some (getMetaValue f k) else metaLookup t k := by
  induction ks with
  | nil => intro t k; simp
  | cons a ks ih =>
    intro t k
    rw [List.foldl_cons, ih]
    by_cases hks : k ∈ ks
    · simp [hks]
    · rw [if_neg hks]
      by_cases hka : k = a
      · subst hka
        rw [metaLookup_set, if_pos rfl, if_pos (List.mem_cons_self k ks)]
      · rw [metaLookup_set, if_neg (fun h => hka h.symm),
          if_neg (by simp [hka, hks])]

/-- The per-key semantics of `copyMetaValues_`: keys of the source win,
all other keys keep the value of the target. -/
lemma metaLookup_copy (f t : MetaMap) (k : String) :
    metaLookup (copyMetaValues_ f t) k =
      (metaLookup f k).or (metaLookup t k) := by
  rw [copyMetaValues_, metaLookup_copy_fold]
  rcases h : metaLookup f k with _ | v
  · have h2 : alistLookup f k = none := h
    have hk : k ∉ getKeys f := by
      simpa [getKeys] using (alistLookup_eq_none f k).mp h2
    rw [if_neg hk]
    rfl
  · have h2 : alistLookup f k = some v := h
    have hk : k ∈ getKeys f := by
      simpa [getKeys] using (alistLookup_isSome f k).mp (by rw [h2]; rfl)
    rw [if_pos hk]
    simp [getMetaValue, h, Option.or]

lemma derefPepRef_setPepAt_ne (cmap : ConsensusMap) (r r2 : PepRef)
    (p : PeptideIdentification) (h : r2 ≠ r) :
    derefPepRef (setPepAt cmap r p) r2 = derefPepRef cmap r2 := by
  obtain ⟨i1, s1⟩ := r
  obtain ⟨i2, s2⟩ := r2
  rcases i1 with g1 | n1
  · cases hf : cmap.features[g1]? with
    | none => simp [setPepAt, hf]
    | some cf =>
      have hg1 : g1 < cmap.features.length := by
        exact (List.getElem?_eq_some_iff.mp hf).1
      rcases i2 with g2 | n2
      · by_cases hg : g1 = g2
        · subst hg
          have hs : s1 ≠ s2 := by
            intro hss; exact h (by rw [hss])
          simp [derefPepRef, setPepAt, hf, List.getElem?_set_self hg1,
            List.getElem?_set_ne hs]
        · simp [derefPepRef, setPepAt, hf, List.getElem?_set_ne hg]
      · rcases n2 with _ | n2 <;> simp [derefPepRef, setPepAt, hf]
  · rcases n1 with _ | n1
    · rcases i2 with g2 | n2
      · simp [derefPepRef, setPepAt]
      · rcases n2 with _ | n2
        · have hs : s1 ≠ s2 := by
            intro hss; exact h (by rw [hss])
          simp [derefPepRef, setPepAt, List.getElem?_set_ne hs]
        · simp [derefPepRef, setPepAt]
    · simp [setPepAt]

lemma outFeatWrites_ok (out_feat : List String) (n : Nat)
    (h : n ≤ out_feat.length) :
    outFeatWrites out_feat n = .ok (out_feat.take n) := by
  induction n with
  | zero => simp [outFeatWrites]
  | succ m ih =>
    have hm : m ≤ out_feat.length := Nat.le_of_succ_le h
    have hlt : m < out_feat.length := h
    rw [outFeatWrites, ih hm]
    have hne : out_feat ≠ [] := by
      intro hnil; rw [hnil] at hlt; simp at hlt
    have hget : out_feat[m]? = some (out_feat.get ⟨m, hlt⟩) := by
      simp [List.getElem?_eq_getElem hlt]
    rw [outFeatWrite, if_neg (by simpa using hne), hget]
    have : out_feat.take (m + 1) = out_feat.take m ++ [out_feat.get ⟨m, hlt⟩] := by
      rw [List.take_succ]
      simp [List.getElem?_eq_getElem hlt]
    rw [this]

/-- Claim C10: the out_feat list is not length-validated; a non-empty
out_feat shorter than the established run-count makes the per-run
`out_feat[i]` access invalid (the error branch of the total embedding is
reached). -/
theorem outFeat_not_validated (out_feat : List String) (number_exps : Nat)
    (hne : out_feat ≠ []) (hlen : out_feat.length < number_exps) :
    outFeatWrites out_feat number_exps = .error .indexOutOfBounds := by
  induction number_exps with
  | zero => omega
  | succ m ih =>
    rcases Nat.lt_or_ge out_feat.length m with hlt | hge
    · rw [outFeatWrites, ih hlt]
    · have heq : out_feat.length = m := by omega
      rw [outFeatWrites, outFeatWrites_ok out_feat m (by omega)]
      rw [outFeatWrite, if_neg (by simpa using hne)]
      have : out_feat[m]? = none := by
        rw [List.getElem?_eq_none_iff]; omega
      rw [this]

/-- Witness for C10: one output file against two runs. -/
theorem outFeat_not_validated_witness :
    outFeatWrites ["f1.featureXML"] 2 = .error .indexOutOfBounds :=
  outFeat_not_validated ["f1.featureXML"] 2 (by decide) (by decide)

/-- Claim C8: the runnability test is exactly the superset test on the
Status, it is reflexive (a Status equal to the unit's requirement set
runs the unit), and it is monotone (any superset of a Status that runs a
unit also runs it). -/
theorem isRunnable_superset_refl_mono (u s t : Status) :
    (isRunnable_ u s = true ↔ u ⊆ s) ∧
    isRunnable_ u u = true ∧
    (isRunnable_ u s = true → s ⊆ t → isRunnable_ u t = true) := by
  refine ⟨?_, ?_, ?_⟩
  · simp [isRunnable_, isSuperSetOf]
  · simp [isRunnable_, isSuperSetOf]
  · intro hrun hsub
    simp only [isRunnable_, isSuperSetOf, decide_eq_true_eq] at hrun ⊢
    exact hrun.trans hsub

/-- Witness for C8 at a concrete Status. -/
theorem isRunnable_superset_refl_mono_witness :
    isRunnable_ {Requires.RAWMZML} {Requires.RAWMZML, Requires.POSTFDRFEAT} = true := by
  have h := isRunnable_superset_refl_mono {Requires.RAWMZML} {Requires.RAWMZML}
    {Requires.RAWMZML, Requires.POSTFDRFEAT}
  exact h.2.2 h.2.1 (by decide)

/-- Claim C1: the validator returns an empty list unchanged without
touching run-count or Status; a first non-empty list establishes the
run-count as its length and marks the Requirement; a later non-empty list
of mismatching length fails with a configuration error whose message
names the port and the expected count; a matching list succeeds and marks
the Requirement. -/
theorem updateFileStatus_spec (status : Status) (number_exps : Nat)
    (port : String) (files : List String) (req : Requires) :
    (files = [] →
      updateFileStatus_ status number_exps port files req =
        .ok (status, number_exps, files)) ∧
    (files ≠ [] → number_exps = 0 →
      updateFileStatus_ status number_exps port files req =
        .ok (insert req status, files.length, files)) ∧
    (files ≠ [] → number_exps ≠ 0 → number_exps ≠ files.length →
      updateFileStatus_ status number_exps port files req =
        .error (.invalidParameter
          (port ++ ": invalid number of files. Expected were " ++
            toString number_exps ++ ".\n"))) ∧
    (files ≠ [] → number_exps = files.length →
      updateFileStatus_ status number_exps port files req =
        .ok (insert req status, number_exps, files)) := by
  refine ⟨?_, ?_, ?_, ?_⟩
  · intro h; simp [updateFileStatus_, h]
  · intro hne h0
    simp [updateFileStatus_, hne, h0]
  · intro hne h0 hmis
    simp [updateFileStatus_, hne, h0, hmis]
  · intro hne heq
    have hlen : files.length ≠ 0 := by
      simpa [List.length_eq_zero] using hne
    rcases Nat.eq_zero_or_pos number_exps with h0 | h0
    · omega
    · simp [updateFileStatus_, hne, heq, Nat.pos_iff_ne_zero.mp h0]

lemma metaLookup_stampCfId_uid (gid : Int) (p : PeptideIdentification) :
    metaLookup (stampCfId gid p).meta "UID" = metaLookup p.meta "UID" := by
  show metaLookup (setMetaValue p.meta "cf_id" (.int gid)) "UID" =
    metaLookup p.meta "UID"
  rw [metaLookup_set, if_neg (by decide)]

lemma getMetaValue_stampCfId_uid (gid : Int) (p : PeptideIdentification) :
    getMetaValue (stampCfId gid p).meta "UID" = getMetaValue p.meta "UID" := by
  simp [getMetaValue, metaLookup_stampCfId_uid]

lemma getMetaValue_stampCfId_cfid (gid : Int) (p : PeptideIdentification) :
    getMetaValue (stampCfId gid p).meta "cf_id" = .int gid := by
  show getMetaValue (setMetaValue p.meta "cf_id" (.int gid)) "cf_id" = .int gid
  simp [getMetaValue, metaLookup_set]

lemma pepKey_stampCfId (gid : Int) (p : PeptideIdentification) :
    pepKey (stampCfId gid p) = pepKey p := by
  simp [pepKey, getMetaValue_stampCfId_uid]

lemma fillPepIDMap_ok (ps : List PeptideIdentification) :
    ∀ (m : PepMap) (gid : Int) (slot : Nat),
    (∀ p ∈ ps, metaValueExists p.meta "UID" = true) →
    fillPepIDMap_ m gid slot ps =
      .ok (fillMapOf m gid slot ps, ps.map (stampCfId gid)) := by
  induction ps with
  | nil => intro m gid slot h; rfl
  | cons p ps ih =>
    intro m gid slot h
    have hp : metaValueExists p.meta "UID" = true := h p (List.mem_cons_self p ps)
    rw [fillPepIDMap_, if_neg (by rw [hp]; simp),
      getMetaValue_stampCfId_uid,
      ih _ gid (slot + 1) (fun q hq => h q (List.mem_cons_of_mem p hq))]
    rw [fillMapOf, pepKey]
    rfl

lemma fillPepIDMap_error (ps : List PeptideIdentification) :
    ∀ (m : PepMap) (gid : Int) (slot : Nat),
    (¬ ∀ p ∈ ps, metaValueExists p.meta "UID" = true) →
    fillPepIDMap_ m gid slot ps =
      .error (.invalidParameter
        "No unique ID at peptideidentifications found. Please run PeptideIndexer with -addUID.\n") := by
  induction ps with
  | nil => intro m gid slot h; exact absurd (by simp) h
  | cons p ps ih =>
    intro m gid slot h
    by_cases hp : metaValueExists p.meta "UID" = true
    · have hps : ¬ ∀ q ∈ ps, metaValueExists q.meta "UID" = true := by
        intro hall
        exact h (by
          intro q hq
          rcases List.mem_cons.mp hq with hq | hq
          · rw [hq]; exact hp
          · exact hall q hq)
      rw [fillPepIDMap_, if_neg (by rw [hp]; simp), ih _ gid (slot + 1) hps]
    · rw [fillPepIDMap_,
        if_pos (by simpa using hp)]

lemma keys_entriesOf (gid : Int) (ps : List PeptideIdentification) :
    ∀ slot, (entriesOf gid slot ps).map Prod.fst = ps.map pepKey := by
  induction ps with
  | nil => intro slot; rfl
  | cons p ps ih => intro slot; simp [entriesOf, ih]

lemma length_entriesOf (gid : Int) (ps : List PeptideIdentification) :
    ∀ slot, (entriesOf gid slot ps).length = ps.length := by
  induction ps with
  | nil => intro slot; rfl
  | cons p ps ih => intro slot; simp [entriesOf, ih]

lemma isSome_fillMapOf (ps : List PeptideIdentification) :
    ∀ (m : PepMap) (gid : Int) (slot : Nat) (k : String),
    (alistLookup (fillMapOf m gid slot ps) k).isSome = true ↔
      ((alistLookup m k).isSome = true ∨ k ∈ ps.map pepKey) := by
  induction ps with
  | nil => intro m gid slot k; simp [fillMapOf]
  | cons p ps ih =>
    intro m gid slot k
    rw [fillMapOf, ih, alistLookup_insert]
    by_cases hk : pepKey p = k
    · subst hk
      simp
    · rw [if_neg hk]
      simp only [List.map_cons, List.mem_cons]
      constructor
      · rintro (h1 | h1)
        · exact Or.inl h1
        · exact Or.inr (Or.inr h1)
      · rintro (h1 | h1 | h1)
        · exact Or.inl h1
        · exact absurd h1.symm hk
        · exact Or.inr h1

lemma fillMapOf_append (ps : List PeptideIdentification) :
    ∀ (m : PepMap) (gid : Int) (slot : Nat),
    (∀ p ∈ ps, pepKey p ∉ m.map Prod.fst) →
    (ps.map pepKey).Nodup →
    fillMapOf m gid slot ps = m ++ entriesOf gid slot ps := by
  induction ps with
  | nil => intro m gid slot hfresh hnd; simp [fillMapOf, entriesOf]
  | cons p ps ih =>
    intro m gid slot hfresh hnd
    rw [fillMapOf,
      alistInsert_of_notMem _ (hfresh p (List.mem_cons_self p ps))]
    simp only [List.map_cons, List.nodup_cons] at hnd
    have hfresh2 : ∀ q ∈ ps, pepKey q ∉ (m ++ [(pepKey p, (gid, slot))]).map Prod.fst := by
      intro q hq
      rw [List.map_append]
      intro hmem
      rcases List.mem_append.mp hmem with hmem | hmem
      · exact hfresh q (List.mem_cons_of_mem p hq) hmem
      · simp only [List.map_cons, List.map_nil, List.mem_singleton] at hmem
        exact hnd.1 (hmem ▸ List.mem_map_of_mem pepKey hq)
    rw [ih _ gid (slot + 1) hfresh2 hnd.2, entriesOf, List.append_assoc]
    rfl

lemma fillGroups_ok (cfs : List ConsensusFeature) :
    ∀ (m : PepMap) (gidx : Nat),
    (∀ cf ∈ cfs, ∀ p ∈ cf.pepIds, metaValueExists p.meta "UID" = true) →
    fillGroups m gidx cfs =
      .ok (groupsMapOf m gidx cfs, stampedFeatures gidx cfs) := by
  induction cfs with
  | nil => intro m gidx h; rfl
  | cons cf cfs ih =>
    intro m gidx h
    have h1 := fillPepIDMap_ok cf.pepIds m (Int.ofNat gidx) 0
      (h cf (List.mem_cons_self cf cfs))
    have h2 := ih (fillMapOf m (Int.ofNat gidx) 0 cf.pepIds) (gidx + 1)
      (fun c hc => h c (List.mem_cons_of_mem cf hc))
    rw [fillGroups]
    simp only [h1]
    simp only [h2]
    rw [groupsMapOf, stampedFeatures]

lemma fillGroups_error (cfs : List ConsensusFeature) :
    ∀ (m : PepMap) (gidx : Nat),
    (¬ ∀ cf ∈ cfs, ∀ p ∈ cf.pepIds, metaValueExists p.meta "UID" = true) →
    fillGroups m gidx cfs =
      .error (.invalidParameter
        "No unique ID at peptideidentifications found. Please run PeptideIndexer with -addUID.\n") := by
  induction cfs with
  | nil => intro m gidx h; exact absurd (by simp) h
  | cons cf cfs ih =>
    intro m gidx h
    by_cases hcf : ∀ p ∈ cf.pepIds, metaValueExists p.meta "UID" = true
    · have hrest : ¬ ∀ c ∈ cfs, ∀ p ∈ c.pepIds, metaValueExists p.meta "UID" = true := by
        intro hall
        apply h
        intro c hc
        rcases List.mem_cons.mp hc with hc | hc
        · rw [hc]; exact hcf
        · exact hall c hc
      have h1 := fillPepIDMap_ok cf.pepIds m (Int.ofNat gidx) 0 hcf
      have h2 := ih (fillMapOf m (Int.ofNat gidx) 0 cf.pepIds) (gidx + 1) hrest
      rw [fillGroups]
      simp only [h1]
      simp only [h2]
    · have h1 := fillPepIDMap_error cf.pepIds m (Int.ofNat gidx) 0 hcf
      rw [fillGroups]
      simp only [h1]

lemma isSome_groupsMapOf (cfs : List ConsensusFeature) :
    ∀ (m : PepMap) (gidx : Nat) (k : String),
    (alistLookup (groupsMapOf m gidx cfs) k).isSome = true ↔
      ((alistLookup m k).isSome = true ∨
        k ∈ ((cfs.map ConsensusFeature.pepIds).flatten).map pepKey) := by
  induction cfs with
  | nil => intro m gidx k; simp [groupsMapOf]
  | cons cf cfs ih =>
    intro m gidx k
    rw [groupsMapOf, ih, isSome_fillMapOf]
    simp [or_assoc]

lemma groupsMapOf_append (cfs : List ConsensusFeature) :
    ∀ (m : PepMap) (gidx : Nat),
    (∀ p ∈ (cfs.map ConsensusFeature.pepIds).flatten, pepKey p ∉ m.map Prod.fst) →
    (((cfs.map ConsensusFeature.pepIds).flatten).map pepKey).Nodup →
    groupsMapOf m gidx cfs = m ++ entriesOfGroups gidx cfs := by
  induction cfs with
  | nil => intro m gidx hfresh hnd; simp [groupsMapOf, entriesOfGroups]
  | cons cf cfs ih =>
    intro m gidx hfresh hnd
    simp only [List.map_cons, List.flatten_cons, List.mem_append] at hfresh
    have hnd2 : ((cf.pepIds.map pepKey) ++
        ((cfs.map ConsensusFeature.pepIds).flatten).map pepKey).Nodup := by
      simpa [List.map_append] using hnd
    have hndA : (cf.pepIds.map pepKey).Nodup := hnd2.of_append_left
    have hndB : (((cfs.map ConsensusFeature.pepIds).flatten).map pepKey).Nodup :=
      hnd2.of_append_right
    have hdisj : ∀ a ∈ cf.pepIds.map pepKey,
        a ∉ ((cfs.map ConsensusFeature.pepIds).flatten).map pepKey :=
      fun a ha hb => (List.disjoint_of_nodup_append hnd2) ha hb
    rw [groupsMapOf,
      fillMapOf_append _ _ _ _ (fun p hp => hfresh p (Or.inl hp)) hndA,
      ih _ (gidx + 1) ?_ hndB, entriesOfGroups, List.append_assoc]
    intro p hp
    rw [List.map_append, keys_entriesOf]
    intro hmem
    rcases List.mem_append.mp hmem with hmem | hmem
    · exact hfresh p (Or.inr hp) hmem
    · exact hdisj (pepKey p) hmem (List.mem_map_of_mem pepKey hp)

lemma buildPepIDMap_ok (cmap : ConsensusMap)
    (hUID : ∀ p ∈ allPeps cmap, metaValueExists p.meta "UID" = true) :
    buildPepIDMap cmap =
      .ok (fillMapOf (groupsMapOf [] 0 cmap.features) (-1) 0 cmap.unassigned,
        stampedCMap cmap) := by
  have hg : ∀ cf ∈ cmap.features, ∀ p ∈ cf.pepIds,
      metaValueExists p.meta "UID" = true := by
    intro cf hcf p hp
    exact hUID p (List.mem_append_left _
      (List.mem_flatten.mpr ⟨cf.pepIds, List.mem_map_of_mem _ hcf, hp⟩))
  have hu : ∀ p ∈ cmap.unassigned, metaValueExists p.meta "UID" = true :=
    fun p hp => hUID p (List.mem_append_right _ hp)
  have h1 := fillGroups_ok cmap.features [] 0 hg
  have h2 := fillPepIDMap_ok cmap.unassigned (groupsMapOf [] 0 cmap.features)
    (-1) 0 hu
  rw [buildPepIDMap]
  simp only [h1]
  simp only [h2]
  rfl

/-- Claim C2: the Identity Join Index build fails with the fatal
configuration error if any record lacks the "UID" annotation; when all
records carry it, the build succeeds, every record of the result is
stamped with a "cf_id" annotation equal to its group index (-1 for the
unassigned group, per `stampedCMap`/`stampCfId`), and every record's key
is present in the index. -/
theorem pepIDMap_build_spec (cmap : ConsensusMap) :
    ((¬ ∀ p ∈ allPeps cmap, metaValueExists p.meta "UID" = true) →
      buildPepIDMap cmap =
        .error (.invalidParameter
          "No unique ID at peptideidentifications found. Please run PeptideIndexer with -addUID.\n")) ∧
    ((∀ p ∈ allPeps cmap, metaValueExists p.meta "UID" = true) →
      ∃ m, buildPepIDMap cmap = .ok (m, stampedCMap cmap) ∧
        ∀ p ∈ allPeps cmap, (alistLookup m (pepKey p)).isSome = true) ∧
    (∀ (gid : Int) (p : PeptideIdentification),
      getMetaValue (stampCfId gid p).meta "cf_id" = .int gid) := by
  refine ⟨?_, ?_, fun gid p => getMetaValue_stampCfId_cfid gid p⟩
  · intro hmiss
    by_cases hg : ∀ cf ∈ cmap.features, ∀ p ∈ cf.pepIds,
        metaValueExists p.meta "UID" = true
    · have hu : ¬ ∀ p ∈ cmap.unassigned, metaValueExists p.meta "UID" = true := by
        intro hu
        apply hmiss
        intro p hp
        have hp2 : p ∈ (cmap.features.map ConsensusFeature.pepIds).flatten ++
            cmap.unassigned := hp
        rcases List.mem_append.mp hp2 with hp3 | hp3
        · obtain ⟨l, hl, hpl⟩ := List.mem_flatten.mp hp3
          obtain ⟨cf, hcf, rfl⟩ := List.mem_map.mp hl
          exact hg cf hcf p hpl
        · exact hu p hp3
      have h1 := fillGroups_ok cmap.features [] 0 hg
      have h2 := fillPepIDMap_error cmap.unassigned
        (groupsMapOf [] 0 cmap.features) (-1) 0 hu
      rw [buildPepIDMap]
      simp only [h1]
      simp only [h2]
    · have h1 := fillGroups_error cmap.features [] 0 hg
      rw [buildPepIDMap]
      simp only [h1]
  · intro hall
    refine ⟨_, buildPepIDMap_ok cmap hall, ?_⟩
    intro p hp
    rw [isSome_fillMapOf, isSome_groupsMapOf]
    have hp2 : p ∈ (cmap.features.map ConsensusFeature.pepIds).flatten ++
        cmap.unassigned := hp
    rcases List.mem_append.mp hp2 with hp3 | hp3
    · exact Or.inl (Or.inr (List.mem_map_of_mem pepKey hp3))
    · exact Or.inr (List.mem_map_of_mem pepKey hp3)

/-- Witness for C2: a single grouped record without "UID" is fatal. -/
theorem pepIDMap_build_spec_witness :
    buildPepIDMap ⟨[⟨[⟨"", [], []⟩]⟩], [], []⟩ =
      .error (.invalidParameter
        "No unique ID at peptideidentifications found. Please run PeptideIndexer with -addUID.\n") :=
  (pepIDMap_build_spec ⟨[⟨[⟨"", [], []⟩]⟩], [], []⟩).1 (by decide)

lemma alistLookup_mem {α β : Type} [DecidableEq α] (l : List (α × β)) (k : α)
    (hk : k ∈ l.map Prod.fst) :
    ∃ b, alistLookup l k = some b ∧ (k, b) ∈ l := by
  induction l with
  | nil => simp at hk
  | cons hd tl ih =>
    obtain ⟨a, b⟩ := hd
    by_cases hak : a = k
    · subst hak
      exact ⟨b, by simp [alistLookup], List.mem_cons_self _ _⟩
    · have hk2 : k ∈ tl.map Prod.fst := by
        simp only [List.map_cons, List.mem_cons] at hk
        rcases hk with hk | hk
        · exact absurd hk.symm hak
        · exact hk
      obtain ⟨b2, h1, h2⟩ := ih hk2
      exact ⟨b2, by simp [alistLookup, hak, h1], List.mem_cons_of_mem _ h2⟩

lemma mem_entriesOf_elim (gid : Int) (ps : List PeptideIdentification) :
    ∀ (slot : Nat) (k : String) (r : PepRef),
    (k, r) ∈ entriesOf gid slot ps →
    ∃ j q, ps[j]? = some q ∧ k = pepKey q ∧ r = (gid, slot + j) := by
  induction ps with
  | nil => intro slot k r h; simp [entriesOf] at h
  | cons p ps ih =>
    intro slot k r h
    rw [entriesOf] at h
    rcases List.mem_cons.mp h with h | h
    · obtain ⟨hk, hr⟩ := Prod.ext_iff.mp h
      exact ⟨0, p, by simp, hk, by simpa using hr⟩
    · obtain ⟨j, q, h1, h2, h3⟩ := ih (slot + 1) k r h
      refine ⟨j + 1, q, by simpa using h1, h2, ?_⟩
      rw [h3]
      have harith : slot + 1 + j = slot + (j + 1) := by omega
      rw [harith]

lemma mem_entriesOfGroups_elim (cfs : List ConsensusFeature) :
    ∀ (i : Nat) (k : String) (r : PepRef),
    (k, r) ∈ entriesOfGroups i cfs →
    ∃ g cf, cfs[g]? = some cf ∧
      (k, r) ∈ entriesOf (Int.ofNat (i + g)) 0 cf.pepIds := by
  induction cfs with
  | nil => intro i k r h; simp [entriesOfGroups] at h
  | cons cf cfs ih =>
    intro i k r h
    rw [entriesOfGroups] at h
    rcases List.mem_append.mp h with h | h
    · exact ⟨0, cf, by simp, by simpa using h⟩
    · obtain ⟨g, cf2, h1, h2⟩ := ih (i + 1) k r h
      refine ⟨g + 1, cf2, by simpa using h1, ?_⟩
      have harith : i + 1 + g = i + (g + 1) := by omega
      rwa [harith] at h2

lemma getElem?_stampedFeatures (cfs : List ConsensusFeature) :
    ∀ (i g : Nat),
    (stampedFeatures i cfs)[g]? =
      (cfs[g]?).map
        (fun cf =>
          (⟨cf.pepIds.map (stampCfId (Int.ofNat (i + g)))⟩ : ConsensusFeature)) := by
  induction cfs with
  | nil => intro i g; simp [stampedFeatures]
  | cons cf cfs ih =>
    intro i g
    cases g with
    | zero => simp [stampedFeatures]
    | succ g =>
      rw [stampedFeatures]
      simp only [List.getElem?_cons_succ]
      rw [ih (i + 1) g]
      have harith : i + 1 + g = i + (g + 1) := by omega
      rw [harith]

lemma keys_entriesOfGroups (cfs : List ConsensusFeature) :
    ∀ i, (entriesOfGroups i cfs).map Prod.fst =
      ((cfs.map ConsensusFeature.pepIds).flatten).map pepKey := by
  induction cfs with
  | nil => intro i; rfl
  | cons cf cfs ih =>
    intro i
    simp [entriesOfGroups, List.map_append, keys_entriesOf, ih]

lemma length_entriesOfGroups (cfs : List ConsensusFeature) :
    ∀ i, (entriesOfGroups i cfs).length =
      ((cfs.map ConsensusFeature.pepIds).flatten).length := by
  induction cfs with
  | nil => intro i; rfl
  | cons cf cfs ih =>
    intro i
    simp [entriesOfGroups, length_entriesOf, ih]

lemma keys_entriesOfCMap (cmap : ConsensusMap) :
    (entriesOfCMap cmap).map Prod.fst = allKeys cmap := by
  show (entriesOfGroups 0 cmap.features ++
      entriesOf (-1) 0 cmap.unassigned).map Prod.fst =
    ((cmap.features.map ConsensusFeature.pepIds).flatten ++
      cmap.unassigned).map pepKey
  rw [List.map_append, List.map_append, keys_entriesOfGroups, keys_entriesOf]

lemma buildPepIDMap_nodup (cmap : ConsensusMap)
    (hUID : ∀ p ∈ allPeps cmap, metaValueExists p.meta "UID" = true)
    (hnd : (allKeys cmap).Nodup) :
    buildPepIDMap cmap = .ok (entriesOfCMap cmap, stampedCMap cmap) := by
  have hnd2 : (((cmap.features.map ConsensusFeature.pepIds).flatten).map pepKey ++
      cmap.unassigned.map pepKey).Nodup := by
    have heq : allKeys cmap =
        ((cmap.features.map ConsensusFeature.pepIds).flatten).map pepKey ++
          cmap.unassigned.map pepKey := by
      show ((cmap.features.map ConsensusFeature.pepIds).flatten ++
        cmap.unassigned).map pepKey = _
      rw [List.map_append]
    rwa [heq] at hnd
  have hfresh : ∀ p ∈ cmap.unassigned,
      pepKey p ∉ (entriesOfGroups 0 cmap.features).map Prod.fst := by
    intro p hp
    rw [keys_entriesOfGroups]
    exact fun hmem =>
      (List.disjoint_of_nodup_append hnd2) hmem (List.mem_map_of_mem pepKey hp)
  rw [buildPepIDMap_ok cmap hUID,
    groupsMapOf_append _ _ _ (by simp) hnd2.of_append_left, List.nil_append,
    fillMapOf_append _ _ _ _ hfresh hnd2.of_append_right]
  rfl

/-- Claim C6: for a structure whose K records all carry pairwise
distinct unique keys, the Identity Join Index is exactly the traversal
entry list: it has exactly K entries, and looking up any present key
returns a reference that dereferences inside the built structure to a
record still carrying that key. -/
theorem joinIndex_exact_and_reachable (cmap : ConsensusMap)
    (hUID : ∀ p ∈ allPeps cmap, metaValueExists p.meta "UID" = true)
    (hnd : (allKeys cmap).Nodup) :
    buildPepIDMap cmap = .ok (entriesOfCMap cmap, stampedCMap cmap) ∧
    (entriesOfCMap cmap).length = (allPeps cmap).length ∧
    (∀ k ∈ allKeys cmap, ∃ r c,
      alistLookup (entriesOfCMap cmap) k = some r ∧
      derefPepRef (stampedCMap cmap) r = some c ∧
      pepKey c = k) := by
  refine ⟨buildPepIDMap_nodup cmap hUID hnd, ?_, ?_⟩
  · show (entriesOfGroups 0 cmap.features ++
        entriesOf (-1) 0 cmap.unassigned).length =
      ((cmap.features.map ConsensusFeature.pepIds).flatten ++
        cmap.unassigned).length
    rw [List.length_append, List.length_append, length_entriesOfGroups,
      length_entriesOf]
  · intro k hk
    have hkm : k ∈ (entriesOfCMap cmap).map Prod.fst := by
      rw [keys_entriesOfCMap]; exact hk
    obtain ⟨r, hr, hmem⟩ := alistLookup_mem _ k hkm
    have hmem2 : (k, r) ∈ entriesOfGroups 0 cmap.features ++
        entriesOf (-1) 0 cmap.unassigned := hmem
    rcases List.mem_append.mp hmem2 with hm | hm
    · obtain ⟨g, cf, hcf, hin⟩ := mem_entriesOfGroups_elim _ 0 k r hm
      obtain ⟨j, q, hq, hkq, hrq⟩ := mem_entriesOf_elim _ _ 0 k r hin
      refine ⟨r, stampCfId (Int.ofNat (0 + g)) q, hr, ?_,
        by rw [pepKey_stampCfId]; exact hkq.symm⟩
      rw [hrq]
      have hfeat := getElem?_stampedFeatures cmap.features 0 (0 + g)
      simp only [Nat.zero_add] at hfeat
      simp [derefPepRef, stampedCMap, hfeat, hcf, hq]
    · obtain ⟨j, q, hq, hkq, hrq⟩ := mem_entriesOf_elim _ _ 0 k r hm
      refine ⟨r, stampCfId (-1) q, hr, ?_,
        by rw [pepKey_stampCfId]; exact hkq.symm⟩
      rw [hrq]
      have hneg : (-1 : Int) = Int.negSucc 0 := rfl
      rw [hneg]
      simp [derefPepRef, stampedCMap, hq]

/-- Witness for C6: two records with distinct keys, one grouped and one
unassigned. -/
theorem joinIndex_exact_and_reachable_witness :
    buildPepIDMap
      ⟨[⟨[⟨"", [], [("UID", .str "a")]⟩]⟩], [⟨"", [], [("UID", .str "b")]⟩], []⟩ =
      .ok (entriesOfCMap
        ⟨[⟨[⟨"", [], [("UID", .str "a")]⟩]⟩], [⟨"", [], [("UID", .str "b")]⟩], []⟩,
        stampedCMap
        ⟨[⟨[⟨"", [], [("UID", .str "a")]⟩]⟩], [⟨"", [], [("UID", .str "b")]⟩], []⟩) :=
  (joinIndex_exact_and_reachable
    ⟨[⟨[⟨"", [], [("UID", .str "a")]⟩]⟩], [⟨"", [], [("UID", .str "b")]⟩], []⟩
    (by decide) (by decide)).1

/-- Claim C3 (counterexample to the claim as stated): a transient record
without the "UID" annotation does not always cause a fatal error - a
hit-less record is skipped before the key check, so merge-back succeeds
on it. -/
theorem copyPepID_missing_uid_not_always_fatal :
    metaValueExists (⟨"", [], []⟩ : PeptideIdentification).meta "UID" = false ∧
    copyPepIDMetaValues_ [⟨"", [], []⟩] [] ⟨[], [], []⟩ =
      .ok ⟨[], [], []⟩ :=
  ⟨rfl, rfl⟩

/-- Claim C3 (as amended): in merge-back, a transient record with no
ranked hits is skipped without error - even when it also lacks the "UID"
annotation, because the hits check precedes the key check - and a
transient record with at least one hit but without the "UID" annotation
fails with the same InvalidParameter error (same message) the index
build step raises for a record without "UID". -/
theorem copyPepID_skip_and_uid_error
    (map_to_id : PepMap) (cmap : ConsensusMap)
    (t : PeptideIdentification) (rest : List PeptideIdentification) :
    (t.hits = [] →
      copyPepIDMetaValues_ (t :: rest) map_to_id cmap =
        copyPepIDMetaValues_ rest map_to_id cmap) ∧
    (t.hits ≠ [] → metaValueExists t.meta "UID" = false →
      ∃ msg,
        copyPepIDMetaValues_ (t :: rest) map_to_id cmap =
          .error (.invalidParameter msg) ∧
        ∀ (m2 : PepMap) (gid : Int) (slot : Nat)
          (ps : List PeptideIdentification),
          fillPepIDMap_ m2 gid slot (t :: ps) =
            .error (.invalidParameter msg)) := by
  constructor
  · intro h
    simp [copyPepIDMetaValues_, mergePepID, h]
  · intro hne huid
    refine ⟨"No unique ID at peptideidentifications found. Please run PeptideIndexer with -addUID.\n",
      ?_, ?_⟩
    · cases ht : t.hits with
      | nil => exact absurd ht hne
      | cons rh hs =>
        simp [copyPepIDMetaValues_, mergePepID, ht, huid]
    · intro m2 gid slot ps
      simp [fillPepIDMap_, huid]

/-- Witness for C3: a hit-less synthetic record without "UID" is skipped
without error. -/
theorem copyPepID_skip_and_uid_error_witness :
    copyPepIDMetaValues_ [⟨"", [], [("x", .int 1)]⟩] [] ⟨[], [], []⟩ =
      copyPepIDMetaValues_ [] [] ⟨[], [], []⟩ :=
  (copyPepID_skip_and_uid_error [] ⟨[], [], []⟩ ⟨"", [], [("x", .int 1)]⟩ []).1 rfl

/-- Claim C9: merge-back assumes the canonical record it resolves has at
least one hit: for a transient record with hits whose key resolves to a
canonical record with no hits, the unguarded `getHits()[0]` write is
invalid - the error branch of the total embedding is reached. -/
theorem mergeBack_requires_canonical_hits
    (map_to_id : PepMap) (cmap : ConsensusMap)
    (t : PeptideIdentification) (rest : List PeptideIdentification)
    (hhits : t.hits ≠ [])
    (huid : metaValueExists t.meta "UID" = true)
    (r : PepRef)
    (hlook : alistLookup map_to_id (getMetaValue t.meta "UID").asString = some r)
    (c : PeptideIdentification)
    (hderef : derefPepRef cmap r = some c)
    (hempty : c.hits = []) :
    copyPepIDMetaValues_ (t :: rest) map_to_id cmap =
      .error .indexOutOfBounds := by
  cases ht : t.hits with
  | nil => exact absurd ht hhits
  | cons rh hs =>
    simp [copyPepIDMetaValues_, mergePepID, ht, huid, hlook, hderef, hempty]

/-- Witness for C9: a canonical record carrying the key but zero hits. -/
theorem mergeBack_requires_canonical_hits_witness :
    copyPepIDMetaValues_ [⟨"", [⟨[("score", .int 5)]⟩], [("UID", .str "k1")]⟩]
      [("k1", ((-1 : Int), 0))]
      ⟨[], [⟨"", [], [("UID", .str "k1")]⟩], []⟩ =
      .error .indexOutOfBounds :=
  mergeBack_requires_canonical_hits [("k1", ((-1 : Int), 0))]
    ⟨[], [⟨"", [], [("UID", .str "k1")]⟩], []⟩
    ⟨"", [⟨[("score", .int 5)]⟩], [("UID", .str "k1")]⟩ []
    (by decide) rfl ((-1 : Int), 0) rfl ⟨"", [], [("UID", .str "k1")]⟩ rfl rfl

/-- Claim C4: for a transient record with at least one hit, merge-back
rewrites the canonical record resolved through the join index: the full
record-level meta-value set and the full meta-value set of the top-ranked
hit are copied, same-key copies are last-writer-wins (the source value
overwrites the target value), hits below rank 1 of the transient record
are never read, hits below rank 1 of the canonical record are kept
unchanged, and every other record of the consensus map is unchanged. -/
theorem mergeBack_copy_semantics
    (map_to_id : PepMap) (cmap : ConsensusMap)
    (t : PeptideIdentification) (rh : PeptideHit) (trest : List PeptideHit)
    (ht : t.hits = rh :: trest)
    (huid : metaValueExists t.meta "UID" = true)
    (r : PepRef)
    (hlook : alistLookup map_to_id (getMetaValue t.meta "UID").asString = some r)
    (c : PeptideIdentification) (h0 : PeptideHit) (hrest : List PeptideHit)
    (hderef : derefPepRef cmap r = some c)
    (hch : c.hits = h0 :: hrest) :
    mergePepID map_to_id cmap t =
      .ok (setPepAt cmap r
        { identifier := c.identifier
          hits := ⟨copyMetaValues_ rh.meta h0.meta⟩ :: hrest
          meta := copyMetaValues_ t.meta c.meta }) ∧
    (∀ trest2, mergePepID map_to_id cmap { t with hits := rh :: trest2 } =
        mergePepID map_to_id cmap t) ∧
    (∀ k, metaLookup (copyMetaValues_ t.meta c.meta) k =
        (metaLookup t.meta k).or (metaLookup c.meta k)) ∧
    (∀ k, metaLookup (copyMetaValues_ rh.meta h0.meta) k =
        (metaLookup rh.meta k).or (metaLookup h0.meta k)) ∧
    (∀ r2, r2 ≠ r →
      derefPepRef (setPepAt cmap r
        { identifier := c.identifier
          hits := ⟨copyMetaValues_ rh.meta h0.meta⟩ :: hrest
          meta := copyMetaValues_ t.meta c.meta }) r2 = derefPepRef cmap r2) := by
  refine ⟨?_, ?_, ?_, ?_, ?_⟩
  · simp [mergePepID, ht, huid, hlook, hderef, hch]
  · intro trest2
    simp [mergePepID, ht, huid, hlook, hderef, hch]
  · intro k; exact metaLookup_copy _ _ k
  · intro k; exact metaLookup_copy _ _ k
  · intro r2 hr2
    exact derefPepRef_setPepAt_ne cmap r r2 _ hr2

/-- Witness for C4 at a concrete record and consensus map. -/
theorem mergeBack_copy_semantics_witness :
    mergePepID [("k1", ((0 : Int), 0))]
      ⟨[⟨[⟨"", [⟨[("old", .int 1)]⟩], [("UID", .str "k1")]⟩]⟩], [], []⟩
      ⟨"", [⟨[("fme", .int 7)]⟩], [("UID", .str "k1"), ("mc", .int 2)]⟩ =
      .ok (setPepAt ⟨[⟨[⟨"", [⟨[("old", .int 1)]⟩], [("UID", .str "k1")]⟩]⟩], [], []⟩
        ((0 : Int), 0)
        { identifier := ""
          hits := [⟨copyMetaValues_ [("fme", .int 7)] [("old", .int 1)]⟩]
          meta := copyMetaValues_ [("UID", .str "k1"), ("mc", .int 2)]
            [("UID", .str "k1")] }) :=
  (mergeBack_copy_semantics [("k1", ((0 : Int), 0))]
    ⟨[⟨[⟨"", [⟨[("old", .int 1)]⟩], [("UID", .str "k1")]⟩]⟩], [], []⟩
    ⟨"", [⟨[("fme", .int 7)]⟩], [("UID", .str "k1"), ("mc", .int 2)]⟩
    ⟨[("fme", .int 7)]⟩ [] rfl rfl ((0 : Int), 0) rfl
    ⟨"", [⟨[("old", .int 1)]⟩], [("UID", .str "k1")]⟩ ⟨[("old", .int 1)]⟩ []
    rfl rfl).1

lemma buildRunIdMap_error (pids : List ProteinIdentification) :
    ∀ acc : RunIdMap, (acc.map Prod.fst).Nodup →
    ¬ (acc.map Prod.fst ++
        pids.map ProteinIdentification.primaryMSRunPath).Nodup →
    buildRunIdMap acc pids =
      .error (.illegalParameters
        "Multiple protein identifications with the same identifier in ConsensusXML. Check input!\n") := by
  induction pids with
  | nil =>
    intro acc hacc hdup
    simp at hdup
    exact absurd hacc hdup
  | cons pid rest ih =>
    intro acc hacc hdup
    rw [buildRunIdMap]
    cases hl : alistLookup acc pid.primaryMSRunPath with
    | some v => rfl
    | none =>
      have hnotmem : pid.primaryMSRunPath ∉ acc.map Prod.fst :=
        (alistLookup_eq_none acc pid.primaryMSRunPath).mp hl
      have hkeys : (alistInsert acc pid.primaryMSRunPath pid.identifier).map Prod.fst =
          acc.map Prod.fst ++ [pid.primaryMSRunPath] := by
        rw [alistInsert_of_notMem pid.identifier hnotmem, List.map_append]
        rfl
      apply ih
      · rw [hkeys]
        apply List.Nodup.append hacc (List.nodup_singleton _)
        intro x hx hx2
        simp only [List.mem_singleton] at hx2
        subst hx2
        exact hnotmem hx
      · rw [hkeys, List.append_assoc]
        simpa using hdup

/-- Claim C5: two provenance descriptors sharing the same run-path key
make the identifier-map build fail fatally; attaching synthesized records
for an unresolvable run path fails with a configuration error, and the
only possible success outcome is the whole batch appended with the
consensus map untouched (so a failure stages or appends nothing). -/
theorem runIdMap_duplicate_and_attach_atomic
    (cmap : ConsensusMap) (m : RunIdMap) (run_path : List String)
    (new_ids staged : List PeptideIdentification) :
    (¬ (cmap.proteinIds.map ProteinIdentification.primaryMSRunPath).Nodup →
      buildRunIdMap [] cmap.proteinIds =
        .error (.illegalParameters
          "Multiple protein identifications with the same identifier in ConsensusXML. Check input!\n")) ∧
    (alistLookup m run_path = none →
      stageNewIds m run_path new_ids staged cmap =
        .error (.illegalParameters
          ("FeatureXML (MS run " ++ toString run_path ++
            ") does not correspond to ConsensusXML (run not found). Check input!\n"))) ∧
    (∀ out, stageNewIds m run_path new_ids staged cmap = .ok out →
      ∃ ident, alistLookup m run_path = some ident ∧
        out = (staged ++ new_ids.map (fun p => setIdentifier p ident), cmap)) := by
  refine ⟨?_, ?_, ?_⟩
  · intro hdup
    exact buildRunIdMap_error cmap.proteinIds [] (by simp) (by simpa using hdup)
  · intro hl
    simp [stageNewIds, hl]
  · intro out hout
    cases hl : alistLookup m run_path with
    | none => rw [stageNewIds, hl] at hout; exact absurd hout (by simp)
    | some ident =>
      rw [stageNewIds, hl] at hout
      exact ⟨ident, rfl, by injection hout with h; exact h.symm⟩

/-- Witness for C5: two descriptors with the same run path. -/
theorem runIdMap_duplicate_and_attach_atomic_witness :
    buildRunIdMap [] [⟨["A.raw"], "p1"⟩, ⟨["A.raw"], "p2"⟩] =
      .error (.illegalParameters
        "Multiple protein identifications with the same identifier in ConsensusXML. Check input!\n") :=
  (runIdMap_duplicate_and_attach_atomic
    ⟨[], [], [⟨["A.raw"], "p1"⟩, ⟨["A.raw"], "p2"⟩]⟩ [] [] [] []).1 (by decide)

lemma length_ticEntriesSpec (cs : List (List (String × String))) :
    ∀ base i, (ticEntriesSpec base i cs).length = cs.length := by
  induction cs with
  | nil => intro base i; rfl
  | cons c cs ih => intro base i; simp [ticEntriesSpec, ih]

lemma length_ms2EntriesSpec (rs : List ℚ) :
    ∀ base i, (ms2EntriesSpec base i rs).length = rs.length := by
  induction rs with
  | nil => intro base i; rfl
  | cons r rs ih => intro base i; simp [ms2EntriesSpec, ih]

lemma keys_ticEntriesSpec (cs : List (List (String × String))) :
    ∀ base i, (ticEntriesSpec base i cs).map Prod.fst =
      List.range' base cs.length := by
  induction cs with
  | nil => intro base i; rfl
  | cons c cs ih =>
    intro base i
    simp [ticEntriesSpec, ih, List.range'_succ]

lemma keys_ms2EntriesSpec (rs : List ℚ) :
    ∀ base i, (ms2EntriesSpec base i rs).map Prod.fst =
      List.range' base rs.length := by
  induction rs with
  | nil => intro base i; rfl
  | cons r rs ih =>
    intro base i
    simp [ms2EntriesSpec, ih, List.range'_succ]

lemma addTicEntries_append (tics : List (List (String × String))) :
    ∀ (custom : CustomMap) (i : Nat),
    (∀ k ∈ custom.map Prod.fst, k < custom.length) →
    (∀ c ∈ tics, c ≠ []) →
    addTicEntries custom i tics =
      some (custom ++ ticEntriesSpec custom.length i tics) := by
  induction tics with
  | nil => intro custom i hk hc; simp [addTicEntries, ticEntriesSpec]
  | cons c cs ih =>
    intro custom i hk hc
    have hcne : c ≠ [] := hc c (List.mem_cons_self c cs)
    cases hcase : c with
    | nil => exact absurd hcase hcne
    | cons p0 rest =>
      rw [← hcase]
      have hser : ∃ v, serializeTIC c = some v := by
        rw [hcase]; exact ⟨_, rfl⟩
      obtain ⟨v, hv⟩ := hser
      rw [addTicEntries, hv]
      show addTicEntries (alistInsert custom custom.length (mkTicParam i v)) (i + 1) cs =
        some (custom ++ ticEntriesSpec custom.length i (c :: cs))
      have hfresh : custom.length ∉ custom.map Prod.fst := by
        intro hmem
        exact absurd (hk custom.length hmem) (lt_irrefl _)
      rw [alistInsert_of_notMem _ hfresh]
      have hk2 : ∀ k ∈ (custom ++ [(custom.length, mkTicParam i v)]).map Prod.fst,
          k < (custom ++ [(custom.length, mkTicParam i v)]).length := by
        intro k hkmem
        simp only [List.map_append, List.mem_append] at hkmem
        simp only [List.length_append, List.length_singleton]
        rcases hkmem with hkm | hkm
        · exact Nat.lt_succ_of_lt (hk k hkm)
        · simp at hkm
          omega
      rw [ih _ (i + 1) hk2 (fun c2 hc2 => hc c2 (List.mem_cons_of_mem c hc2))]
      simp only [List.length_append, List.length_singleton]
      rw [ticEntriesSpec, hv]
      simp [List.append_assoc]

lemma addMs2Entries_append (rs : List ℚ) :
    ∀ (custom : CustomMap) (i : Nat),
    (∀ k ∈ custom.map Prod.fst, k < custom.length) →
    addMs2Entries custom i rs = custom ++ ms2EntriesSpec custom.length i rs := by
  induction rs with
  | nil => intro custom i hk; simp [addMs2Entries, ms2EntriesSpec]
  | cons r rest ih =>
    intro custom i hk
    rw [addMs2Entries]
    have hfresh : custom.length ∉ custom.map Prod.fst := by
      intro hmem
      exact absurd (hk custom.length hmem) (lt_irrefl _)
    rw [alistInsert_of_notMem _ hfresh]
    have hk2 : ∀ k ∈ (custom ++ [(custom.length, mkMs2Param i r)]).map Prod.fst,
        k < (custom ++ [(custom.length, mkMs2Param i r)]).length := by
      intro k hkmem
      simp only [List.map_append, List.mem_append] at hkmem
      simp only [List.length_append, List.length_singleton]
      rcases hkmem with hkm | hkm
      · exact Nat.lt_succ_of_lt (hk k hkm)
      · simp at hkm
        omega
    rw [ih _ (i + 1) hk2]
    simp only [List.length_append, List.length_singleton]
    rw [ms2EntriesSpec]
    simp [List.append_assoc]

/-- Claim C7: under the invariant that the custom-entry keys are exactly
0..size-1 and every TIC curve is non-empty, the Report Assembler appends
one entry per run per kind (names `TIC_<i+1>` then `MS2_ID_Rate_<i+1>`,
fixed label/accession, bracketed flattened curve resp. 100-scaled rate,
as recorded in the spec-side entry lists), under consecutive integer keys
starting at the current size, and no appended key collides with an
existing one. -/
theorem reportMeta_append_spec (custom : CustomMap)
    (tics : List (List (String × String))) (rates : List ℚ)
    (hk : ∀ k ∈ custom.map Prod.fst, k < custom.length)
    (hcurves : ∀ c ∈ tics, c ≠ []) :
    assembleReportMeta custom tics rates =
      some (custom ++ ticEntriesSpec custom.length 0 tics ++
        ms2EntriesSpec (custom.length + tics.length) 0 rates) ∧
    (ticEntriesSpec custom.length 0 tics ++
        ms2EntriesSpec (custom.length + tics.length) 0 rates).map Prod.fst =
      List.range' custom.length (tics.length + rates.length) ∧
    (∀ p ∈ ticEntriesSpec custom.length 0 tics ++
        ms2EntriesSpec (custom.length + tics.length) 0 rates,
      p.1 ∉ custom.map Prod.fst) := by
  have hmain : assembleReportMeta custom tics rates =
      some (custom ++ ticEntriesSpec custom.length 0 tics ++
        ms2EntriesSpec (custom.length + tics.length) 0 rates) := by
    rw [assembleReportMeta, addTicEntries_append tics custom 0 hk hcurves]
    show some (addMs2Entries (custom ++ ticEntriesSpec custom.length 0 tics) 0 rates) =
      some (custom ++ ticEntriesSpec custom.length 0 tics ++
        ms2EntriesSpec (custom.length + tics.length) 0 rates)
    have hk2 : ∀ k ∈ (custom ++ ticEntriesSpec custom.length 0 tics).map Prod.fst,
        k < (custom ++ ticEntriesSpec custom.length 0 tics).length := by
      intro k hkmem
      simp only [List.map_append, List.mem_append] at hkmem
      rw [List.length_append, length_ticEntriesSpec]
      rcases hkmem with hkm | hkm
      · exact Nat.lt_of_lt_of_le (hk k hkm) (Nat.le_add_right _ _)
      · rw [keys_ticEntriesSpec] at hkm
        obtain ⟨j, hj, he⟩ := List.mem_range'.mp hkm
        omega
    rw [addMs2Entries_append rates _ 0 hk2]
    rw [List.length_append, length_ticEntriesSpec]
  refine ⟨hmain, ?_, ?_⟩
  · rw [List.map_append, keys_ticEntriesSpec, keys_ms2EntriesSpec]
    have h := List.range'_append_1 custom.length tics.length rates.length
    rw [Nat.add_comm rates.length tics.length] at h
    exact h
  · intro p hp hmem
    have hbound := hk p.1 hmem
    simp only [List.mem_append] at hp
    rcases hp with hp | hp
    · have hpm : p.1 ∈ (ticEntriesSpec custom.length 0 tics).map Prod.fst :=
        List.mem_map_of_mem Prod.fst hp
      rw [keys_ticEntriesSpec] at hpm
      obtain ⟨j, hj, he⟩ := List.mem_range'.mp hpm
      omega
    · have hpm : p.1 ∈ (ms2EntriesSpec (custom.length + tics.length) 0 rates).map Prod.fst :=
        List.mem_map_of_mem Prod.fst hp
      rw [keys_ms2EntriesSpec] at hpm
      obtain ⟨j, hj, he⟩ := List.mem_range'.mp hpm
      omega

/-- Witness for C7: one TIC curve and one rate over an empty custom
map. -/
theorem reportMeta_append_spec_witness :
    assembleReportMeta [] [[("1.0", "100.0")]] [(1 : ℚ) / 2] =
      some ([] ++ ticEntriesSpec 0 0 [[("1.0", "100.0")]] ++
        ms2EntriesSpec (0 + 1) 0 [(1 : ℚ) / 2]) :=
  (reportMeta_append_spec [] [[("1.0", "100.0")]] [(1 : ℚ) / 2]
    (by simp) (by simp)).1

/-- Witness for C1: lists of lengths 3, 3, 2 fail at the third
validator call, naming its port and the expected count 3. -/
theorem updateFileStatus_spec_witness :
    updateFileStatus_ {Requires.RAWMZML, Requires.POSTFDRFEAT} 3 "in_trafo"
      ["t1", "t2"] Requires.TRAFOALIGN =
      .error (.invalidParameter
        "in_trafo: invalid number of files. Expected were 3.\n") := by
  have h := (updateFileStatus_spec {Requires.RAWMZML, Requires.POSTFDRFEAT} 3
    "in_trafo" ["t1", "t2"] Requires.TRAFOALIGN).2.2.1
    (by decide) (by decide) (by decide)
  simpa using h

end QualityControl
